import Mathlib

/-!
# SpendWise — verification of the core contracts

Shallow embedding of the SpendWise personal-finance app (`src/main.py`):
the transaction / budget / category tables become Lean lists of rows, the
pandas analytics (daily grouping, 7-day rolling mean, flat forecast to
month-end) become executable functions over `ℚ`-valued amounts, and the
Streamlit click handlers become pure state transformers returning a result
tag together with the updated store.
-/

namespace SpendWise

/-- A calendar date, as parsed by `pd.to_datetime` from the ISO `YYYY-MM-DD`
strings stored in the `transactions.date` column. -/
structure Date where
  year : Nat
  month : Nat
  day : Nat
deriving DecidableEq, Repr

/-- Ordinal encoding of a date; for valid dates (month ≤ 12, day ≤ 31) it is
injective and orders dates chronologically, and consecutive days inside one
month have consecutive keys — mirroring pandas timestamp ordering. -/
def Date.key (d : Date) : Nat := d.year * 10000 + d.month * 100 + d.day

/-- Decode a key back to the date (exact on valid dates). -/
def Date.ofKey (k : Nat) : Date := ⟨k / 10000, k / 100 % 100, k % 100⟩

/-- Gregorian month length, as used by pandas `to_period("M").to_timestamp("M")`. -/
def daysInMonth (y m : Nat) : Nat :=
  if m = 2 then (if (y % 4 = 0 ∧ y % 100 ≠ 0) ∨ y % 400 = 0 then 29 else 28)
  else if m = 4 ∨ m = 6 ∨ m = 9 ∨ m = 11 then 30 else 31

/-- A date that `pd.to_datetime` would accept. -/
def Date.valid (d : Date) : Prop :=
  1 ≤ d.month ∧ d.month ≤ 12 ∧ 1 ≤ d.day ∧ d.day ≤ daysInMonth d.year d.month

instance (d : Date) : Decidable d.valid := by unfold Date.valid; infer_instance

/-- A transaction as seen by the analytics: an amount and a calendar date
(the other columns play no role in the time series). -/
structure Tx where
  amount : ℚ
  date : Date
deriving DecidableEq, Repr

/-- Insert one transaction into the date-keyed daily-total table, keeping it
sorted ascending by date key and summing amounts on an existing date.  The
fold of this over a snapshot is exactly
`ts_df.groupby("date")["amount"].sum().sort_values("date")` (main.py 670-674). -/
def addToDaily (m : List (Nat × ℚ)) (k : Nat) (a : ℚ) : List (Nat × ℚ) :=
  match m with
  | [] => [(k, a)]
  | (k', v) :: rest =>
    if k < k' then (k, a) :: (k', v) :: rest
    else if k = k' then (k', v + a) :: rest
    else (k', v) :: addToDaily rest k a

/-- The `daily` dataframe: one row per distinct transaction date, ascending,
carrying the summed amount (the "Daily spending" column). -/
def daily (txs : List Tx) : List (Nat × ℚ) :=
  txs.foldl (fun m t => addToDaily m t.date.key t.amount) []

/-- `daily["Daily spending"].rolling(window=7, min_periods=1).mean()`
(main.py 678): entry `i` is the mean of the up-to-7 entries ending at `i`. -/
def movingAvg7 (xs : List ℚ) : List ℚ :=
  (List.range xs.length).map (fun i =>
    let w := (xs.take (i + 1)).drop (i + 1 - 7)
    w.sum / w.length)

/-- Spec-side rendering of "the trailing window of up to 7 present entries
ending at entry i": the last up-to-7 elements of the first `i+1` entries. -/
def trailingWindow (xs : List ℚ) (i : Nat) : List ℚ :=
  ((xs.take (i + 1)).reverse.take 7).reverse

/-- The forecast rows (main.py 681-700): if the last observed date
(`daily["date"].max()`) is before its month's last calendar day, one row per
day from the next day through month-end, each carrying the final 7-day MA
value (`daily["7-day MA"].iloc[-1]`); otherwise no rows.  Dates are in key
form; within one month consecutive days are consecutive keys, so
`pd.date_range(last+1d, month_end, freq="D")` is the key range below. -/
def forecast (txs : List Tx) : List (Nat × ℚ) :=
  match ((daily txs).map Prod.fst).max? with
  | none => []
  | some lk =>
    let d := Date.ofKey lk
    let monthEnd : Date := ⟨d.year, d.month, daysInMonth d.year d.month⟩
    if lk < monthEnd.key then
      let fv := ((movingAvg7 ((daily txs).map Prod.snd)).getLast?).getD 0
      (List.range (monthEnd.key - lk)).map (fun i => (lk + 1 + i, fv))
    else []

/-- A row of the `transactions` table (all users' rows live in one table). -/
structure TxRow where
  id : Nat
  user : Nat
  amount : ℚ
  category : String
  date : String
  note : Option String
deriving DecidableEq, Repr

/-- `note or None` (main.py 103/114): a blank note is stored as NULL. -/
def normNote (n : Option String) : Option String :=
  match n with
  | none => none
  | some s => if s = "" then none else some s

/-- `update_tx` (main.py 111-116): `UPDATE transactions SET ... WHERE id=? AND
user_id=?` — rewrites exactly the rows matching both id and owner. -/
def update_tx (table : List TxRow) (user tx : Nat) (amount : ℚ)
    (category date : String) (note : Option String) : List TxRow :=
  table.map (fun r =>
    if r.id = tx ∧ r.user = user then
      { r with amount := amount, category := category, date := date,
               note := normNote note }
    else r)

/-- `delete_tx` (main.py 107-109): `DELETE FROM transactions WHERE id=? AND
user_id=?`. -/
def delete_tx (table : List TxRow) (user tx : Nat) : List TxRow :=
  table.filter (fun r => ¬ (r.id = tx ∧ r.user = user))

/-- What the edit-row click handlers report to the user. -/
inductive TxReport where
  | success
  | notFound
deriving DecidableEq, Repr

/-- The Save handler (main.py 796-808): runs `update_tx` and then
unconditionally shows "Updated" — no row-count check, no error surfaced. -/
def save_clicked (table : List TxRow) (user tx : Nat) (amount : ℚ)
    (category date : String) (note : Option String) : List TxRow × TxReport :=
  (update_tx table user tx amount category date note, TxReport.success)

/-- The Delete handler (main.py 811-814): runs `delete_tx` and then
unconditionally shows "Deleted". -/
def delete_clicked (table : List TxRow) (user tx : Nat) : List TxRow × TxReport :=
  (delete_tx table user tx, TxReport.success)

/-- A row of the `budgets` table. -/
structure BudgetRow where
  user : Nat
  category : String
  amount : ℚ
deriving DecidableEq, Repr

/-- The `UNIQUE(user_id, category)` constraint of the `budgets` table: no two
rows share a key. -/
def uniqKey (table : List BudgetRow) : Prop :=
  table.Pairwise (fun r s => ¬ (r.user = s.user ∧ r.category = s.category))

/-- The rows of the table holding a given key. -/
def findByKey (table : List BudgetRow) (user : Nat) (category : String) :
    List BudgetRow :=
  table.filter (fun r => r.user = user ∧ r.category = category)

/-- `upsert_budget` (main.py 119-128): `INSERT ... ON CONFLICT(user_id,
category) DO UPDATE SET amount=excluded.amount` — update the conflicting row
when the key exists, insert a fresh row otherwise. -/
def upsert_budget (table : List BudgetRow) (user : Nat) (category : String)
    (amount : ℚ) : List BudgetRow :=
  if table.any (fun r => r.user = user ∧ r.category = category) then
    table.map (fun r =>
      if r.user = user ∧ r.category = category then { r with amount := amount }
      else r)
  else table ++ [⟨user, category, amount⟩]

/-- Budget-card tier, read off the colour branches of `draw_budget_cards`. -/
inductive Tier where
  | unset
  | ok
  | warn
  | over
deriving DecidableEq, Repr

/-- `percent = (spent_val / budget_val * 100.0) if budget_val > 0 else 0.0`
(main.py 507). -/
def percentOf (spent budget : ℚ) : ℚ :=
  if budget > 0 then spent / budget * 100 else 0

/-- The tier cascade of `draw_budget_cards` (main.py 508-519): grey when no
budget is set, then green / amber / red by percentage. -/
def tierOf (spent budget : ℚ) : Tier :=
  if budget = 0 then Tier.unset
  else if percentOf spent budget < 80 then Tier.ok
  else if percentOf spent budget < 100 then Tier.warn
  else Tier.over

/-- `kpi_from_df` (main.py 141-146) over the analytics snapshot: total spent,
average per distinct day present, and the row count. -/
def kpi_from_df (txs : List Tx) : ℚ × ℚ × Nat :=
  let total : ℚ := if txs.isEmpty then 0 else (txs.map Tx.amount).sum
  let uniqueDays : Nat := if txs.isEmpty then 1 else (txs.map Tx.date).dedup.length
  (total, total / (max uniqueDays 1 : Nat), txs.length)

/-- The fixed base category list (main.py 17-30). -/
def CATEGORIES : List String :=
  ["Food & Groceries", "Transport", "Housing", "Utilities", "Entertainment",
   "Shopping", "Health", "Education", "Travel", "Subscriptions", "Income",
   "Other"]

/-- The persistent store slice the category handlers touch: the transactions
table and the `user_categories` table (rows `(user_id, name)`). -/
structure DB where
  transactions : List TxRow
  user_categories : List (Nat × String)
deriving DecidableEq, Repr

/-- `get_user_categories` (main.py 156-163): `SELECT name FROM user_categories
WHERE user_id = ? ORDER BY name` — the rows of the user, sorted by name
(SQLite's default BINARY collation, i.e. the lexicographic order on the
character sequence). -/
def get_user_categories (db : DB) (user : Nat) : List String :=
  List.insertionSort (fun a b => a.data ≤ b.data)
    ((db.user_categories.filter (fun r => r.1 = user)).map Prod.snd)

/-- `get_all_categories` (main.py 165-172): base categories followed by the
user's custom ones, skipping customs that duplicate a base name. -/
def get_all_categories (db : DB) (user : Nat) : List String :=
  (get_user_categories db user).foldl
    (fun base c => if c ∈ base then base else base ++ [c]) CATEGORIES

/-- Python's `str.strip()`: drop leading and trailing whitespace. -/
def strip (s : String) : String :=
  String.mk (((s.data.dropWhile Char.isWhitespace).reverse.dropWhile
    Char.isWhitespace).reverse)

/-- Python's `str.lower()`: lower-case every character. -/
def lower (s : String) : String :=
  String.mk (s.data.map Char.toLower)

/-- Outcome of the Add-category callback (warning / info / success feedback). -/
inductive AddCatResult where
  | validationError
  | duplicateError
  | ok
deriving DecidableEq, Repr

/-- `handle_add_category` (main.py 298-319): trim the name, reject an empty
name, reject a case-insensitive duplicate of any listed category, otherwise
insert `(user_id, name)` into `user_categories`. -/
def handle_add_category (db : DB) (user : Nat) (raw : String) :
    AddCatResult × DB :=
  let name := strip raw
  if name = "" then (AddCatResult.validationError, db)
  else if lower name ∈ (get_all_categories db user).map lower then
    (AddCatResult.duplicateError, db)
  else (AddCatResult.ok,
    { db with user_categories := db.user_categories ++ [(user, name)] })

/-- Outcome of the Delete-category button. -/
inductive RemoveCatResult where
  | protectedError
  | ok
deriving DecidableEq, Repr

/-- The Delete-category handler (main.py 373-382): base categories cannot be
deleted; otherwise `DELETE FROM user_categories WHERE user_id = ? AND
name = ?`. -/
def delete_cat_clicked (db : DB) (user : Nat) (name : String) :
    RemoveCatResult × DB :=
  if name ∈ CATEGORIES then (RemoveCatResult.protectedError, db)
  else (RemoveCatResult.ok,
    { db with user_categories :=
        db.user_categories.filter (fun r => ¬ (r.1 = user ∧ r.2 = name)) })

/-- A row of the `users` table, with the password already hashed; the hash
function is passed in (`hash_password` is a fixed salted SHA-256 digest whose
internals the signup rule does not depend on). -/
structure UserRow where
  email : String
  password_hash : String
deriving DecidableEq, Repr

/-- `create_user` (main.py 89-98): insert the row, or report a duplicate email
when the `UNIQUE(email)` constraint fires. -/
def create_user (users : List UserRow) (hashFn : String → String)
    (email password : String) : List UserRow × Bool :=
  if users.any (fun u => u.email = email) then (users, false)
  else (users ++ [⟨email, hashFn password⟩], true)

/-- Outcome of the signup form submit. -/
inductive SignupResult where
  | tooShort
  | emailTaken
  | created
deriving DecidableEq, Repr

/-- The signup submit handler (main.py 266-274): passwords shorter than six
characters are rejected before `create_user` is ever called; otherwise the
trimmed email and the password go to `create_user`. -/
def signup_submit (users : List UserRow) (hashFn : String → String)
    (email password : String) : List UserRow × SignupResult :=
  if password.length < 6 then (users, SignupResult.tooShort)
  else
    match create_user users hashFn email.trim password with
    | (users', true) => (users', SignupResult.created)
    | (users', false) => (users', SignupResult.emailTaken)

/-! ## Daily series and 7-day moving average (C1) -/

/-- The summed amount a date key carries in a daily table. -/
def valOf (m : List (Nat × ℚ)) (k : Nat) : ℚ :=
  ((m.filter (fun p => p.1 = k)).map Prod.snd).sum

theorem valOf_nil (k : Nat) : valOf [] k = 0 := rfl

theorem valOf_cons (k0 : Nat) (v0 : ℚ) (m : List (Nat × ℚ)) (k : Nat) :
    valOf ((k0, v0) :: m) k = (if k0 = k then v0 else 0) + valOf m k := by
  unfold valOf
  by_cases h : k0 = k
  · simp [List.filter_cons, h]
  · simp [List.filter_cons, h]

/-- The keys after inserting into the daily table are the old keys plus the
inserted one. -/
theorem addToDaily_fst_mem (m : List (Nat × ℚ)) (k : Nat) (a : ℚ) (k' : Nat) :
    k' ∈ (addToDaily m k a).map Prod.fst ↔ k' = k ∨ k' ∈ m.map Prod.fst := by
  induction m with
  | nil => simp [addToDaily]
  | cons p rest ih =>
    obtain ⟨k0, v0⟩ := p
    simp only [addToDaily]
    split_ifs with h1 h2
    · simp only [List.map_cons, List.mem_cons]
    · subst h2
      simp only [List.map_cons, List.mem_cons]
      tauto
    · simp only [List.map_cons, List.mem_cons, ih]
      tauto

/-- Insertion keeps the daily table strictly sorted by date key. -/
theorem addToDaily_pairwise (m : List (Nat × ℚ)) (k : Nat) (a : ℚ)
    (h : m.Pairwise (fun p q => p.1 < q.1)) :
    (addToDaily m k a).Pairwise (fun p q => p.1 < q.1) := by
  induction m with
  | nil => simp [addToDaily]
  | cons p rest ih =>
    obtain ⟨k0, v0⟩ := p
    rw [List.pairwise_cons] at h
    simp only [addToDaily]
    split_ifs with h1 h2
    · rw [List.pairwise_cons]
      refine ⟨?_, List.pairwise_cons.mpr ⟨h.1, h.2⟩⟩
      intro q hq
      rcases List.mem_cons.mp hq with hq | hq
      · rw [hq]; exact h1
      · exact h1.trans (h.1 q hq)
    · exact List.pairwise_cons.mpr ⟨h.1, h.2⟩
    · rw [List.pairwise_cons]
      refine ⟨?_, ih h.2⟩
      intro q hq
      have hmem : q.1 ∈ (addToDaily rest k a).map Prod.fst :=
        List.mem_map.mpr ⟨q, hq, rfl⟩
      rcases (addToDaily_fst_mem rest k a q.1).mp hmem with hk | hk
      · rw [hk]; omega
      · obtain ⟨q', hq', hq'e⟩ := List.mem_map.mp hk
        rw [← hq'e]
        exact h.1 q' hq'

/-- Inserting adds the amount to the inserted key and nothing else. -/
theorem valOf_addToDaily (m : List (Nat × ℚ)) (k : Nat) (a : ℚ) (k' : Nat) :
    valOf (addToDaily m k a) k' = valOf m k' + (if k = k' then a else 0) := by
  induction m with
  | nil =>
    simp only [addToDaily, valOf_cons, valOf_nil]
    ring
  | cons p rest ih =>
    obtain ⟨k0, v0⟩ := p
    by_cases h1 : k < k0
    · simp only [addToDaily, if_pos h1, valOf_cons]
      ring
    · by_cases h2 : k = k0
      · simp only [addToDaily, if_neg h1, if_pos h2, valOf_cons]
        subst h2
        by_cases h : k = k'
        · simp [h]
          ring
        · simp [h]
      · simp only [addToDaily, if_neg h1, if_neg h2, valOf_cons, ih]
        ring

/-- Seeds of the fold computing `daily`: keys of the result. -/
theorem daily_loop_fst_mem (l : List Tx) :
    ∀ (m : List (Nat × ℚ)) (k' : Nat),
      k' ∈ ((l.foldl (fun m t => addToDaily m t.date.key t.amount) m).map
        Prod.fst) ↔
        k' ∈ m.map Prod.fst ∨ k' ∈ l.map (fun t => t.date.key) := by
  induction l with
  | nil => simp
  | cons t ts ih =>
    intro m k'
    simp only [List.foldl_cons, List.map_cons, List.mem_cons]
    rw [ih, addToDaily_fst_mem]
    tauto

/-- The fold keeps the table strictly sorted. -/
theorem daily_loop_pairwise (l : List Tx) :
    ∀ m : List (Nat × ℚ), m.Pairwise (fun p q => p.1 < q.1) →
      (l.foldl (fun m t => addToDaily m t.date.key t.amount) m).Pairwise
        (fun p q => p.1 < q.1) := by
  induction l with
  | nil => exact fun m h => h
  | cons t ts ih =>
    intro m hm
    exact ih _ (addToDaily_pairwise m t.date.key t.amount hm)

/-- The fold accumulates, per key, the sum of the amounts on that date. -/
theorem daily_loop_valOf (l : List Tx) :
    ∀ (m : List (Nat × ℚ)) (k : Nat),
      valOf (l.foldl (fun m t => addToDaily m t.date.key t.amount) m) k =
        valOf m k +
          ((l.filter (fun t => t.date.key = k)).map Tx.amount).sum := by
  induction l with
  | nil => simp
  | cons t ts ih =>
    intro m k
    simp only [List.foldl_cons]
    rw [ih, valOf_addToDaily, List.filter_cons]
    by_cases h : t.date.key = k <;> (simp [h]; try ring)

/-- The per-index value of the rolling mean. -/
theorem movingAvg7_getD (xs : List ℚ) (i : Nat) (h : i < xs.length) :
    (movingAvg7 xs).getD i 0 =
      ((xs.take (i + 1)).drop (i + 1 - 7)).sum /
        ((xs.take (i + 1)).drop (i + 1 - 7)).length := by
  unfold movingAvg7
  rw [List.getD_eq_getElem?_getD, List.getElem?_map, List.getElem?_range h]
  rfl

/-- The pandas window `drop (i+1-7) ∘ take (i+1)` is exactly the trailing
window of up to 7 present entries ending at entry `i`. -/
theorem trailingWindow_eq_window (xs : List ℚ) (i : Nat) (h : i < xs.length) :
    trailingWindow xs i = (xs.take (i + 1)).drop (i + 1 - 7) := by
  unfold trailingWindow
  rw [List.take_reverse, List.reverse_reverse]
  congr 1
  rw [List.length_take]
  omega

theorem trailingWindow_length (xs : List ℚ) (i : Nat) (h : i < xs.length) :
    (trailingWindow xs i).length = min (i + 1) 7 := by
  rw [trailingWindow_eq_window xs i h, List.length_drop, List.length_take]
  omega

theorem movingAvg7_length (xs : List ℚ) : (movingAvg7 xs).length = xs.length := by
  simp [movingAvg7]

/-- C1: for every non-empty snapshot, the daily series is strictly sorted
ascending by date key; its keys are exactly the transaction dates (no
zero-filled gap dates); each key carries the sum of the amounts on that date;
and the 7-day moving average has one entry per daily entry, entry `i` being
the mean of the trailing window of up to 7 present entries ending at `i` (of
length `min (i+1) 7`, so the first entry is its own daily total); daily
totals `[10, 20, 30]` give `movingAvg7 = [10, 15, 20]`. -/
theorem daily_series_movingAvg7_spec (txs : List Tx) (hne : txs ≠ []) :
    (daily txs).Pairwise (fun p q => p.1 < q.1)
  ∧ (∀ k, k ∈ (daily txs).map Prod.fst ↔ k ∈ txs.map (fun t => t.date.key))
  ∧ (∀ k, valOf (daily txs) k =
      ((txs.filter (fun t => t.date.key = k)).map Tx.amount).sum)
  ∧ (movingAvg7 ((daily txs).map Prod.snd)).length = (daily txs).length
  ∧ (∀ i, i < (daily txs).length →
      (movingAvg7 ((daily txs).map Prod.snd)).getD i 0 =
        (trailingWindow ((daily txs).map Prod.snd) i).sum /
          (trailingWindow ((daily txs).map Prod.snd) i).length
      ∧ (trailingWindow ((daily txs).map Prod.snd) i).length = min (i + 1) 7)
  ∧ ((movingAvg7 ((daily txs).map Prod.snd)).getD 0 0 =
      ((daily txs).map Prod.snd).getD 0 0)
  ∧ movingAvg7 [10, 20, 30] = [10, 15, 20] := by
  have hkeys : ∀ k, k ∈ (daily txs).map Prod.fst ↔
      k ∈ txs.map (fun t => t.date.key) := by
    intro k
    unfold daily
    rw [daily_loop_fst_mem]
    simp
  have hdne : daily txs ≠ [] := by
    obtain ⟨t, ts, rfl⟩ : ∃ t ts, txs = t :: ts := by
      cases txs with
      | nil => exact absurd rfl hne
      | cons t ts => exact ⟨t, ts, rfl⟩
    intro habs
    have := (hkeys t.date.key).mpr (by simp)
    rw [habs] at this
    simp at this
  have hdlen : 0 < (daily txs).length := List.length_pos.mpr hdne
  have hmlen : 0 < ((daily txs).map Prod.snd).length := by
    simpa using hdlen
  refine ⟨?_, hkeys, ?_, by rw [movingAvg7_length, List.length_map], ?_, ?_, ?_⟩
  · exact daily_loop_pairwise txs [] List.Pairwise.nil
  · intro k
    unfold daily
    rw [daily_loop_valOf]
    simp [valOf_nil]
  · intro i hi
    have hi' : i < ((daily txs).map Prod.snd).length := by simpa using hi
    exact ⟨by rw [movingAvg7_getD _ _ hi', trailingWindow_eq_window _ _ hi'],
      trailingWindow_length _ _ hi'⟩
  · rw [movingAvg7_getD _ _ hmlen]
    obtain ⟨x, rest, hx⟩ : ∃ x rest, (daily txs).map Prod.snd = x :: rest := by
      cases hm : (daily txs).map Prod.snd with
      | nil => rw [hm] at hmlen; simp at hmlen
      | cons x rest => exact ⟨x, rest, rfl⟩
    rw [hx]
    norm_num
  · norm_num [movingAvg7, List.range_succ]

/-- Witness for C1 on the snapshot with totals 10, 20, 30 on three
consecutive days. -/
theorem daily_series_movingAvg7_spec_witness :
    movingAvg7 [10, 20, 30] = [10, 15, 20] :=
  (daily_series_movingAvg7_spec
    [⟨10, ⟨2024, 1, 1⟩⟩, ⟨20, ⟨2024, 1, 2⟩⟩, ⟨30, ⟨2024, 1, 3⟩⟩]
    (by simp)).2.2.2.2.2.2

/-! ## Flat forecast to month-end (C2) -/

theorem daysInMonth_bounds (y m : Nat) :
    28 ≤ daysInMonth y m ∧ daysInMonth y m ≤ 31 := by
  unfold daysInMonth
  split_ifs <;> omega

/-- Key decoding round-trips on dates with in-range fields. -/
theorem Date.ofKey_key (d : Date) (hm : d.month ≤ 99) (hd : d.day ≤ 99) :
    Date.ofKey d.key = d := by
  obtain ⟨y, m, dd⟩ := d
  simp only [Date.ofKey, Date.key, Date.mk.injEq] at *
  refine ⟨?_, ?_, ?_⟩ <;> omega

/-- C2: with every transaction dated validly and `lk` the last observed date
(the maximum date key of the daily series), if that date sits strictly before
its month's last calendar day then the forecast has exactly one entry per
calendar day from the next day through month-end — entry `i` is dated
`day+1+i` of the same month and carries the final entry's 7-day moving
average — while if the last observed date already is the month's last day the
forecast is empty; and on the empty snapshot both the daily series and the
forecast are empty. -/
theorem forecast_to_month_end_spec (txs : List Tx)
    (hval : ∀ t ∈ txs, t.date.valid) (lk : Nat)
    (hlk : ((daily txs).map Prod.fst).max? = some lk) :
    ((Date.ofKey lk).day <
        daysInMonth (Date.ofKey lk).year (Date.ofKey lk).month →
        (forecast txs).length =
          daysInMonth (Date.ofKey lk).year (Date.ofKey lk).month -
            (Date.ofKey lk).day
      ∧ (∀ i, i < daysInMonth (Date.ofKey lk).year (Date.ofKey lk).month -
            (Date.ofKey lk).day →
          (forecast txs).getD i (0, 0) =
            ((Date.mk (Date.ofKey lk).year (Date.ofKey lk).month
                ((Date.ofKey lk).day + 1 + i)).key,
             ((movingAvg7 ((daily txs).map Prod.snd)).getLast?).getD 0)))
  ∧ ((Date.ofKey lk).day =
        daysInMonth (Date.ofKey lk).year (Date.ofKey lk).month →
      forecast txs = [])
  ∧ daily ([] : List Tx) = [] ∧ forecast ([] : List Tx) = [] := by
  have hmem : lk ∈ (daily txs).map Prod.fst := by
    have := List.max?_mem (a := lk) (fun a b => max_choice a b) hlk
    obtain ⟨p, hp, hpe⟩ := List.mem_map.mp this
    exact List.mem_map.mpr ⟨p, hp, hpe⟩
  have htx : ∃ t ∈ txs, t.date.key = lk := by
    have h2 : lk ∈ txs.map (fun t => t.date.key) := by
      have h3 := (daily_loop_fst_mem txs [] lk).mp (by
        unfold daily at hmem
        exact hmem)
      simpa using h3
    obtain ⟨t, ht, hte⟩ := List.mem_map.mp h2
    exact ⟨t, ht, hte⟩
  obtain ⟨t, htmem, htkey⟩ := htx
  obtain ⟨hm1, hm2, hd1, hd2⟩ := hval t htmem
  have hround : Date.ofKey lk = t.date := by
    rw [← htkey]
    exact Date.ofKey_key t.date (by omega)
      (by have := (daysInMonth_bounds t.date.year t.date.month).2; omega)
  have hlk_eq : lk = (Date.ofKey lk).year * 10000 +
      (Date.ofKey lk).month * 100 + (Date.ofKey lk).day := by
    rw [hround, ← htkey]
    rfl
  have hdim31 :
      daysInMonth (Date.ofKey lk).year (Date.ofKey lk).month ≤ 31 :=
    (daysInMonth_bounds _ _).2
  have hday_le : (Date.ofKey lk).day ≤
      daysInMonth (Date.ofKey lk).year (Date.ofKey lk).month := by
    rw [hround]
    exact hd2
  refine ⟨?_, ?_, rfl, rfl⟩
  · intro hday
    have hcond : lk < (Date.mk (Date.ofKey lk).year (Date.ofKey lk).month
        (daysInMonth (Date.ofKey lk).year (Date.ofKey lk).month)).key := by
      simp only [Date.key]
      omega
    have hfc : forecast txs =
        (List.range ((Date.mk (Date.ofKey lk).year (Date.ofKey lk).month
            (daysInMonth (Date.ofKey lk).year (Date.ofKey lk).month)).key -
            lk)).map
          (fun i => (lk + 1 + i,
            ((movingAvg7 ((daily txs).map Prod.snd)).getLast?).getD 0)) := by
      unfold forecast
      rw [hlk]
      simp only [if_pos hcond]
    have hrange : (Date.mk (Date.ofKey lk).year (Date.ofKey lk).month
        (daysInMonth (Date.ofKey lk).year (Date.ofKey lk).month)).key - lk =
        daysInMonth (Date.ofKey lk).year (Date.ofKey lk).month -
          (Date.ofKey lk).day := by
      simp only [Date.key]
      omega
    constructor
    · rw [hfc, List.length_map, List.length_range, hrange]
    · intro i hi
      rw [hfc, List.getD_eq_getElem?_getD, List.getElem?_map,
        List.getElem?_range (by rw [hrange]; exact hi)]
      simp only [Option.map_some', Option.getD_some, Prod.mk.injEq]
      constructor
      · simp only [Date.key]
        omega
      · trivial
  · intro hday
    have hcond : ¬ lk < (Date.mk (Date.ofKey lk).year (Date.ofKey lk).month
        (daysInMonth (Date.ofKey lk).year (Date.ofKey lk).month)).key := by
      simp only [Date.key]
      omega
    unfold forecast
    rw [hlk]
    simp only [if_neg hcond]

/-- Witness for C2: a single transaction on 2024-01-28 (three days before
month-end) yields a forecast of exactly 3 entries, the first dated
2024-01-29. -/
theorem forecast_to_month_end_spec_witness :
    (forecast [⟨50, ⟨2024, 1, 28⟩⟩]).length = 3
  ∧ ((forecast [⟨50, ⟨2024, 1, 28⟩⟩]).map Prod.fst).getD 0 0 = 20240129 := by
  have h := (forecast_to_month_end_spec [⟨50, ⟨2024, 1, 28⟩⟩] (by decide)
    20240128 (by decide)).1 (by decide)
  refine ⟨h.1.trans (by decide), ?_⟩
  have h2 := h.2 0 (by decide)
  rw [List.getD_eq_getElem?_getD, List.getElem?_map]
  rw [List.getD_eq_getElem?_getD] at h2
  cases hfe : (forecast [⟨50, ⟨2024, 1, 28⟩⟩])[0]? with
  | none =>
    rw [hfe] at h2
    simp at h2
    exact absurd h2.symm (by decide)
  | some p =>
    rw [hfe] at h2
    simp only [Option.getD_some] at h2
    simp only [Option.map_some, Option.getD_some, h2]
    decide

/-! ## Budget status tiers (C5) -/

/-- C5: for every budget amount and spent value, `percent` is
`spent/budget*100` when the budget is positive and `0` otherwise, and the
card tier is `unset` exactly when the budget is 0, `ok` exactly when a budget
is set and the percentage is below 80, `warn` exactly on [80, 100), and
`over` exactly at or above 100. -/
theorem budget_tier_spec (spent budget : ℚ) :
    (budget > 0 → percentOf spent budget = spent / budget * 100)
  ∧ (¬ budget > 0 → percentOf spent budget = 0)
  ∧ (tierOf spent budget = Tier.unset ↔ budget = 0)
  ∧ (tierOf spent budget = Tier.ok ↔
      budget ≠ 0 ∧ percentOf spent budget < 80)
  ∧ (tierOf spent budget = Tier.warn ↔
      budget ≠ 0 ∧ 80 ≤ percentOf spent budget ∧ percentOf spent budget < 100)
  ∧ (tierOf spent budget = Tier.over ↔
      budget ≠ 0 ∧ 100 ≤ percentOf spent budget) := by
  unfold tierOf percentOf
  split_ifs with h1 h2 h3 <;> (simp_all; try linarith)

/-- Witness for C5 at spent = 85, budget = 100: the percentage is 85 and the
tier is `warn`. -/
theorem budget_tier_spec_witness :
    percentOf 85 100 = 85 ∧ tierOf 85 100 = Tier.warn := by
  have h := budget_tier_spec 85 100
  refine ⟨(h.1 (by norm_num)).trans (by norm_num), ?_⟩
  exact h.2.2.2.2.1.mpr ⟨by norm_num, by
    rw [h.1 (by norm_num)]; norm_num, by rw [h.1 (by norm_num)]; norm_num⟩

/-! ## KPIs (C6) -/

/-- C6: `kpi_from_df` returns the sum of all amounts (0 when empty), that sum
divided by `max(distinct dates present, 1)`, and the row count; on the empty
snapshot it is `(0, 0, 0)` with no division by zero. -/
theorem kpis_spec (txs : List Tx) :
    kpi_from_df txs =
      ((txs.map Tx.amount).sum,
       (txs.map Tx.amount).sum /
         (max (txs.map Tx.date).dedup.length 1 : Nat),
       txs.length)
  ∧ kpi_from_df [] = (0, 0, 0) := by
  constructor
  · cases txs with
    | nil => simp [kpi_from_df]
    | cons t ts => simp [kpi_from_df]
  · simp [kpi_from_df]

/-- Witness for C6 on a three-row snapshot over two distinct days: total 35,
average 35/2, count 3. -/
theorem kpis_spec_witness :
    kpi_from_df [⟨10, ⟨2024, 1, 1⟩⟩, ⟨5, ⟨2024, 1, 3⟩⟩, ⟨20, ⟨2024, 1, 1⟩⟩] =
      (35, 35 / 2, 3) := by
  have h := (kpis_spec [⟨10, ⟨2024, 1, 1⟩⟩, ⟨5, ⟨2024, 1, 3⟩⟩,
    ⟨20, ⟨2024, 1, 1⟩⟩]).1
  rw [h]; norm_num [List.dedup]

/-! ## Transaction ownership guard (C3) -/

/-- C3 counterexample: on a table holding only user 1's transaction `id = 1`,
user 2's update and delete leave the table unchanged (zero rows affected) but
the handlers report plain success — `NotFoundError` is never surfaced. -/
theorem update_delete_notFound_counterexample :
    (save_clicked [⟨1, 1, 5, "Food & Groceries", "2024-01-01", none⟩] 2 1 7
        "Transport" "2024-01-02" none =
      ([⟨1, 1, 5, "Food & Groceries", "2024-01-01", none⟩], TxReport.success))
  ∧ (delete_clicked [⟨1, 1, 5, "Food & Groceries", "2024-01-01", none⟩] 2 1 =
      ([⟨1, 1, 5, "Food & Groceries", "2024-01-01", none⟩], TxReport.success))
  ∧ TxReport.success ≠ TxReport.notFound := by
  refine ⟨?_, ?_, by decide⟩ <;>
    simp [save_clicked, delete_clicked, update_tx, delete_tx]

/-- C3 amended: an update or delete whose `(id, user)` pair matches no row
affects zero rows — the table is returned unchanged, so no transaction of any
user is modified or removed — and the handlers report unconditional success
(the code never surfaces `NotFoundError`). -/
theorem update_delete_silent_noop (table : List TxRow) (user tx : Nat)
    (amount : ℚ) (category date : String) (note : Option String)
    (h : ∀ r ∈ table, ¬ (r.id = tx ∧ r.user = user)) :
    save_clicked table user tx amount category date note =
      (table, TxReport.success)
  ∧ delete_clicked table user tx = (table, TxReport.success) := by
  constructor
  · unfold save_clicked update_tx
    rw [List.map_congr_left (g := id) ?_, List.map_id]
    intro r hr
    simp [h r hr]
  · unfold delete_clicked delete_tx
    rw [List.filter_eq_self.mpr ?_]
    intro r hr
    have := h r hr
    simp only [decide_eq_true_eq, not_and]
    tauto

/-- Witness for C3 (amended) at a concrete one-row table and a foreign
`(id, user)` pair. -/
theorem update_delete_silent_noop_witness :
    save_clicked [⟨1, 1, 5, "Housing", "2024-02-01", none⟩] 2 9 7 "Transport"
        "2024-02-02" none =
      ([⟨1, 1, 5, "Housing", "2024-02-01", none⟩], TxReport.success) := by
  exact (update_delete_silent_noop [⟨1, 1, 5, "Housing", "2024-02-01", none⟩]
    2 9 7 "Transport" "2024-02-02" none (by decide)).1

/-! ## Category removal (C8, C9) -/

/-- C8: the Delete-category handler rejects base categories with the
protected-category outcome and leaves the store untouched; on a non-base name
it succeeds, the `(user, name)` row is gone afterwards, every other row
survives, and deleting a name the user never stored is a no-op success. -/
theorem remove_category_spec (db : DB) (user : Nat) (name : String) :
    (name ∈ CATEGORIES →
      delete_cat_clicked db user name = (RemoveCatResult.protectedError, db))
  ∧ (name ∉ CATEGORIES →
        (delete_cat_clicked db user name).1 = RemoveCatResult.ok
      ∧ (user, name) ∉ (delete_cat_clicked db user name).2.user_categories
      ∧ (∀ r ∈ db.user_categories, ¬ (r.1 = user ∧ r.2 = name) →
          r ∈ (delete_cat_clicked db user name).2.user_categories)
      ∧ ((user, name) ∉ db.user_categories →
          delete_cat_clicked db user name = (RemoveCatResult.ok, db))) := by
  constructor
  · intro h
    simp [delete_cat_clicked, h]
  · intro h
    refine ⟨by simp [delete_cat_clicked, h], ?_, ?_, ?_⟩
    · simp [delete_cat_clicked, h]
    · intro r hr hmatch
      simp only [delete_cat_clicked, if_neg h, List.mem_filter]
      refine ⟨hr, by simp only [decide_eq_true_eq, not_and]; tauto⟩
    · intro habs
      simp only [delete_cat_clicked, if_neg h, Prod.mk.injEq, true_and]
      have hfix : ∀ r ∈ db.user_categories, ¬ (r.1 = user ∧ r.2 = name) := by
        intro r hr ⟨h1, h2⟩
        exact habs (by rwa [← h1, ← h2, Prod.mk.eta])
      cases db with
      | mk txt cats =>
        simp only [DB.mk.injEq, true_and]
        refine List.filter_eq_self.mpr (fun r hr => ?_)
        have := hfix r hr
        simp only [decide_eq_true_eq, not_and]
        tauto

/-- Witness for C8: removing the base category "Income" is rejected, and
removing the stored custom category "pets" succeeds and removes the row. -/
theorem remove_category_spec_witness :
    delete_cat_clicked ⟨[], [(1, "pets")]⟩ 1 "Income" =
      (RemoveCatResult.protectedError, ⟨[], [(1, "pets")]⟩)
  ∧ (delete_cat_clicked ⟨[], [(1, "pets")]⟩ 1 "pets").1 = RemoveCatResult.ok
  ∧ (1, "pets") ∉
      (delete_cat_clicked ⟨[], [(1, "pets")]⟩ 1 "pets").2.user_categories := by
  refine ⟨(remove_category_spec ⟨[], [(1, "pets")]⟩ 1 "Income").1 (by decide),
    ?_, ?_⟩
  · exact ((remove_category_spec ⟨[], [(1, "pets")]⟩ 1 "pets").2 (by decide)).1
  · exact ((remove_category_spec ⟨[], [(1, "pets")]⟩ 1 "pets").2 (by decide)).2.1

/-- C9: successfully removing a custom (non-base) category leaves the
transactions table exactly as it was — every transaction row of every user
survives with its category string unchanged (no cascade). -/
theorem remove_category_frame (db : DB) (user : Nat) (name : String)
    (h : name ∉ CATEGORIES) :
    (delete_cat_clicked db user name).1 = RemoveCatResult.ok
  ∧ (delete_cat_clicked db user name).2.transactions = db.transactions
  ∧ ∀ t ∈ db.transactions,
      t ∈ (delete_cat_clicked db user name).2.transactions := by
  refine ⟨by simp [delete_cat_clicked, h], by simp [delete_cat_clicked, h], ?_⟩
  intro t ht
  simpa [delete_cat_clicked, h] using ht

/-- Witness for C9: removing "pets" leaves the transaction tagged "pets"
untouched. -/
theorem remove_category_frame_witness :
    (delete_cat_clicked
        ⟨[⟨1, 1, 5, "pets", "2024-01-01", none⟩], [(1, "pets")]⟩ 1
        "pets").2.transactions =
      [⟨1, 1, 5, "pets", "2024-01-01", none⟩] := by
  exact (remove_category_frame
    ⟨[⟨1, 1, 5, "pets", "2024-01-01", none⟩], [(1, "pets")]⟩ 1 "pets"
    (by decide)).2.1

/-! ## Category creation (C7) -/

/-- Membership in the folded base-plus-custom list is membership in either
source list: the fold only ever appends elements of the custom list. -/
theorem mem_foldl_append_categories (cs : List String) :
    ∀ (base : List String) (c : String),
      c ∈ cs.foldl (fun b x => if x ∈ b then b else b ++ [x]) base ↔
        c ∈ base ∨ c ∈ cs := by
  induction cs with
  | nil => simp
  | cons x xs ih =>
    intro base c
    simp only [List.foldl_cons, ih, List.mem_cons]
    by_cases hx : x ∈ base
    · rw [if_pos hx]
      constructor
      · tauto
      · rintro (hc | hc | hc) <;> try tauto
        exact Or.inl (hc ▸ hx)
    · rw [if_neg hx]
      simp only [List.mem_append, List.mem_singleton]
      tauto

/-- `get_all_categories` lists exactly the base categories and the user's
stored custom names. -/
theorem mem_get_all_categories (db : DB) (user : Nat) (c : String) :
    c ∈ get_all_categories db user ↔
      c ∈ CATEGORIES ∨ c ∈ get_user_categories db user := by
  unfold get_all_categories
  exact mem_foldl_append_categories (get_user_categories db user) CATEGORIES c

/-- C7: adding a category first trims the name; an empty trimmed name is
rejected as a validation failure and a trimmed name whose lower-casing
matches any listed category (base or custom) is rejected as a duplicate, both
leaving the store unchanged; otherwise the add succeeds and a subsequent
`get_all_categories` contains the new name with its original casing. -/
theorem add_category_spec (db : DB) (user : Nat) (raw : String) :
    (strip raw = "" →
      handle_add_category db user raw = (AddCatResult.validationError, db))
  ∧ (strip raw ≠ "" →
      lower (strip raw) ∈ (get_all_categories db user).map lower →
      handle_add_category db user raw = (AddCatResult.duplicateError, db))
  ∧ (strip raw ≠ "" →
      lower (strip raw) ∉ (get_all_categories db user).map lower →
        (handle_add_category db user raw).1 = AddCatResult.ok
      ∧ strip raw ∈
          get_all_categories (handle_add_category db user raw).2 user) := by
  refine ⟨fun he => by simp [handle_add_category, he], ?_, ?_⟩
  · intro hne hdup
    simp [handle_add_category, hne, hdup]
  · intro hne hdup
    constructor
    · simp [handle_add_category, hne, hdup]
    · simp only [handle_add_category, if_neg hne, if_neg hdup]
      rw [mem_get_all_categories]
      right
      unfold get_user_categories
      rw [List.mem_insertionSort]
      simp

/-- Witness for C7: with no custom categories, adding "pets" succeeds and it
then appears in the merged list; adding "Pets" afterwards is rejected as a
case-insensitive duplicate with the store unchanged. -/
theorem add_category_spec_witness :
    (handle_add_category ⟨[], []⟩ 1 "pets").1 = AddCatResult.ok
  ∧ "pets" ∈ get_all_categories (handle_add_category ⟨[], []⟩ 1 "pets").2 1
  ∧ handle_add_category (handle_add_category ⟨[], []⟩ 1 "pets").2 1 "Pets" =
      (AddCatResult.duplicateError, (handle_add_category ⟨[], []⟩ 1 "pets").2) := by
  have h1 := (add_category_spec ⟨[], []⟩ 1 "pets").2.2 (by decide) (by decide)
  have hs : strip "pets" = "pets" := by decide
  rw [hs] at h1
  refine ⟨h1.1, h1.2, ?_⟩
  exact (add_category_spec (handle_add_category ⟨[], []⟩ 1 "pets").2 1
    "Pets").2.1 (by decide) (by decide)

/-! ## Budget upsert (C4) -/

/-- One upsert on a duplicate-free table leaves exactly one row for the key,
carrying the new amount. -/
theorem findByKey_upsert_budget (t : List BudgetRow) (user : Nat)
    (category : String) (a : ℚ) (h : uniqKey t) :
    findByKey (upsert_budget t user category a) user category =
      [⟨user, category, a⟩] := by
  unfold upsert_budget
  by_cases hany : t.any (fun r => decide (r.user = user ∧ r.category = category))
  · rw [if_pos (by simpa using hany)]
    unfold findByKey
    rw [List.filter_map]
    have hcong : List.filter
        ((fun r => decide (r.user = user ∧ r.category = category)) ∘
          (fun r => if r.user = user ∧ r.category = category then
            { r with amount := a } else r)) t =
        List.filter (fun r => decide (r.user = user ∧ r.category = category)) t := by
      apply List.filter_congr
      intro r _
      simp only [Function.comp_apply]
      by_cases hr : r.user = user ∧ r.category = category
      · rw [if_pos hr]
      · rw [if_neg hr]
    rw [hcong]
    obtain ⟨r0, hr0⟩ : ∃ r0, List.filter
        (fun r => decide (r.user = user ∧ r.category = category)) t = [r0] := by
      rcases hfe : List.filter
          (fun r => decide (r.user = user ∧ r.category = category)) t with
        _ | ⟨r1, _ | ⟨r2, rest⟩⟩
      · rw [List.any_eq_true] at hany
        obtain ⟨r, hrmem, hrp⟩ := hany
        have : r ∈ (.nil : List BudgetRow) := by
          rw [← hfe]; exact List.mem_filter.mpr ⟨hrmem, hrp⟩
        simp at this
      · exact ⟨r1, hfe⟩
      · exfalso
        have hpw : (List.filter
            (fun r => decide (r.user = user ∧ r.category = category)) t).Pairwise
            (fun r s => ¬ (r.user = s.user ∧ r.category = s.category)) :=
          List.Pairwise.filter _ h
        rw [hfe, List.pairwise_cons] at hpw
        have h1 : r1 ∈ List.filter
            (fun r => decide (r.user = user ∧ r.category = category)) t := by
          rw [hfe]; exact List.mem_cons_self _ _
        have h2 : r2 ∈ List.filter
            (fun r => decide (r.user = user ∧ r.category = category)) t := by
          rw [hfe]; exact List.mem_cons_of_mem _ (List.mem_cons_self _ _)
        have hp1 := (List.mem_filter.mp h1).2
        have hp2 := (List.mem_filter.mp h2).2
        simp only [decide_eq_true_eq] at hp1 hp2
        exact hpw.1 r2 (List.mem_cons_self _ _)
          ⟨hp1.1.trans hp2.1.symm, hp1.2.trans hp2.2.symm⟩
    rw [hr0]
    have hp0 : r0.user = user ∧ r0.category = category := by
      have : r0 ∈ List.filter
          (fun r => decide (r.user = user ∧ r.category = category)) t := by
        rw [hr0]; exact List.mem_cons_self _ _
      simpa using (List.mem_filter.mp this).2
    simp only [List.map_cons, List.map_nil, if_pos hp0]
    cases r0 with
    | mk u0 c0 a0 =>
      simp only [List.cons.injEq, and_true]
      simp only at hp0
      rw [hp0.1, hp0.2]
  · rw [if_neg (by simpa using hany)]
    unfold findByKey
    rw [List.filter_append]
    rw [Bool.not_eq_true, List.any_eq_false] at hany
    have hnil : List.filter
        (fun r => decide (r.user = user ∧ r.category = category)) t = [] :=
      List.filter_eq_nil_iff.mpr (fun r hr => by simpa using hany r hr)
    rw [hnil]
    simp

/-- An upsert never creates a second row for a key: the unique-key invariant
is preserved. -/
theorem uniqKey_upsert_budget (t : List BudgetRow) (user : Nat)
    (category : String) (a : ℚ) (h : uniqKey t) :
    uniqKey (upsert_budget t user category a) := by
  unfold upsert_budget uniqKey
  have hg : ∀ r : BudgetRow,
      ((if r.user = user ∧ r.category = category then { r with amount := a }
        else r) : BudgetRow).user = r.user ∧
      ((if r.user = user ∧ r.category = category then { r with amount := a }
        else r) : BudgetRow).category = r.category := by
    intro r
    by_cases hr : r.user = user ∧ r.category = category
    · rw [if_pos hr]; exact ⟨rfl, rfl⟩
    · rw [if_neg hr]; exact ⟨rfl, rfl⟩
  by_cases hany : t.any (fun r => decide (r.user = user ∧ r.category = category))
  · rw [if_pos (by simpa using hany)]
    rw [List.pairwise_map]
    refine h.imp (fun {r s} hrs => ?_)
    rw [(hg r).1, (hg r).2, (hg s).1, (hg s).2]
    exact hrs
  · rw [if_neg (by simpa using hany)]
    rw [List.pairwise_append]
    refine ⟨h, List.pairwise_singleton _ _, ?_⟩
    intro r hr s hs
    rw [List.mem_singleton] at hs
    rw [Bool.not_eq_true, List.any_eq_false] at hany
    have := hany r hr
    simp only [decide_eq_true_eq] at this
    subst hs
    simpa using this

/-- C4: starting from a table satisfying the `UNIQUE(user_id, category)`
constraint, two upserts for the same key leave exactly one row for that key,
carrying the second amount, and any upsert preserves the no-duplicate
invariant. -/
theorem upsert_budget_twice_spec (t : List BudgetRow) (user : Nat)
    (category : String) (a1 a2 : ℚ) (h : uniqKey t) :
    findByKey (upsert_budget (upsert_budget t user category a1) user category a2)
      user category = [⟨user, category, a2⟩]
  ∧ ∀ a : ℚ, uniqKey (upsert_budget t user category a) := by
  refine ⟨?_, fun a => uniqKey_upsert_budget t user category a h⟩
  exact findByKey_upsert_budget _ user category a2
    (uniqKey_upsert_budget t user category a1 h)

/-- Witness for C4: setting the "Transport" budget to 10 then 20 on an empty
table leaves the single row with amount 20. -/
theorem upsert_budget_twice_spec_witness :
    findByKey (upsert_budget (upsert_budget [] 1 "Transport" 10) 1 "Transport" 20)
      1 "Transport" = [⟨1, "Transport", 20⟩] :=
  (upsert_budget_twice_spec [] 1 "Transport" 10 20 List.Pairwise.nil).1

/-! ## Signup password rule (C10) -/

/-- C10: a sign-up whose password has fewer than six characters is rejected
before any write — `create_user` is never reached, no user row is created,
and the credential store is returned unchanged. -/
theorem signup_short_password_rejected (users : List UserRow)
    (hashFn : String → String) (email password : String)
    (h : password.length < 6) :
    signup_submit users hashFn email password = (users, SignupResult.tooShort) := by
  unfold signup_submit
  rw [if_pos h]

/-- Witness for C10: a five-character password is rejected with the store
unchanged. -/
theorem signup_short_password_rejected_witness :
    signup_submit [] (fun s => s) "a@b.c" "12345" = ([], SignupResult.tooShort) :=
  signup_short_password_rejected [] (fun s => s) "a@b.c" "12345" (by decide)

end SpendWise
